import Mathlib

/-!
Verification of the flat-JSON event formatter (`SolinkJsonFormat` in
`src/lib.rs`).

The embedding mirrors `format_event`: a serializer map is a list of
key/value entries appended in program order; scope blobs are parsed with a
model of `serde_json::from_str`; the finished map is rendered compactly and
followed by a newline.

Modelling notes:
* JSON numbers are modelled as integers (the claims under study involve no
  floating-point values).
* Modelled from the spec: the iteration order of a parsed blob's keys is
  the blob's own textual key order (the crate manifest fixing
  `serde_json`'s map representation is not part of `src/`); the parser
  keeps repeated keys in textual order for the same reason.
* `chrono::Utc::now()` is an effect: the formatted clock string is passed
  to the model as an explicit argument.
-/

namespace Solink

/-- JSON values, with numerics restricted to integers. -/
inductive Json where
  | null : Json
  | bool : Bool → Json
  | num : Int → Json
  | str : String → Json
  | arr : List Json → Json
  | obj : List (String × Json) → Json
deriving Repr

/-- Lower-case hexadecimal digit, as used by the `serde_json` escape table. -/
def hexDigit (n : Nat) : Char :=
  if n < 10 then Char.ofNat (48 + n) else Char.ofNat (87 + n)

/-- Escape one character the way `serde_json` escapes string contents. -/
def escapeChar (c : Char) : List Char :=
  if c = '"' then ['\\', '"']
  else if c = '\\' then ['\\', '\\']
  else if c = '\x08' then ['\\', 'b']
  else if c = '\x0c' then ['\\', 'f']
  else if c = '\n' then ['\\', 'n']
  else if c = '\r' then ['\\', 'r']
  else if c = '\t' then ['\\', 't']
  else if c.toNat < 32 then
    ['\\', 'u', '0', '0', hexDigit (c.toNat / 16), hexDigit (c.toNat % 16)]
  else [c]

/-- Escape a whole character list. -/
def escapeList : List Char → List Char
  | [] => []
  | c :: cs => escapeChar c ++ escapeList cs

/-- A rendered JSON string literal: quote, escaped contents, quote. -/
def renderString (s : String) : List Char :=
  '"' :: escapeList s.data ++ ['"']

/-- Decimal digits of a natural number, most significant first. The first
argument is recursion fuel; `natToDigits` supplies enough. -/
def natToDigitsGo : Nat → Nat → List Char → List Char
  | 0, _, acc => acc
  | fuel + 1, n, acc =>
    if n = 0 then acc else natToDigitsGo fuel (n / 10) (Char.ofNat (48 + n % 10) :: acc)

/-- Decimal rendering of a natural number. -/
def natToDigits (n : Nat) : List Char :=
  if n = 0 then ('0' :: []) else natToDigitsGo (n + 1) n []

/-- Decimal rendering of an integer, as `i64`/`u64` display does. -/
def renderInt (n : Int) : List Char :=
  if n < 0 then '-' :: natToDigits n.natAbs else natToDigits n.toNat

mutual

/-- Compact rendering of a JSON value, exactly as `serde_json` emits it. -/
def renderChars : Json → List Char
  | .null => "null".data
  | .bool true => "true".data
  | .bool false => "false".data
  | .num n => renderInt n
  | .str s => renderString s
  | .arr xs => '[' :: (renderArrItems xs ++ [']'])
  | .obj kvs => '\x7b' :: (renderObjItems kvs ++ ['\x7d'])

/-- Comma-separated rendering of a list of array items. -/
def renderArrItems : List Json → List Char
  | [] => []
  | [x] => renderChars x
  | x :: y :: ys => renderChars x ++ ',' :: renderArrItems (y :: ys)

/-- One rendered `key:value` object entry. -/
def renderObjItem : String × Json → List Char
  | (k, v) => renderString k ++ ':' :: renderChars v

/-- Comma-separated rendering of a list of object entries. -/
def renderObjItems : List (String × Json) → List Char
  | [] => []
  | [kv] => renderObjItem kv
  | kv :: kv2 :: kvs => renderObjItem kv ++ ',' :: renderObjItems (kv2 :: kvs)

end

/-- The compact JSON text of a value. -/
def Json.render (j : Json) : String :=
  String.mk (renderChars j)

/-! ## A model of `serde_json::from_str`

An executable recursive-descent parser over `List Char`, fuelled by twice
the input length plus a constant (ample, since every grammar production
consumes at least one character). Restrictions of the model, irrelevant to
the inputs the claims exercise: numbers are integers (no fraction or
exponent part) and `\u` escapes below the surrogate range only. -/

/-- JSON insignificant whitespace. -/
def isWsChar (c : Char) : Bool :=
  c = ' ' || c = '\t' || c = '\n' || c = '\r'

/-- Drop leading insignificant whitespace. -/
def skipWs : List Char → List Char
  | [] => []
  | c :: cs => if isWsChar c then skipWs cs else c :: cs

/-- Split off the leading run of decimal digits. -/
def takeDigits : List Char → List Char × List Char
  | [] => ([], [])
  | c :: cs =>
    if c.isDigit then
      let p := takeDigits cs
      (c :: p.1, p.2)
    else ([], c :: cs)

/-- Evaluate a digit run left to right on top of an accumulator. -/
def digitsVal : Nat → List Char → Nat
  | a, [] => a
  | a, c :: cs => digitsVal (10 * a + (c.toNat - 48)) cs

/-- Parse a natural number literal; a leading zero admits no further digit. -/
def parseNat (s : List Char) : Option (Nat × List Char) :=
  match takeDigits s with
  | ([], _) => none
  | (d :: ds, r) =>
    if d = '0' && !ds.isEmpty then none else some (digitsVal 0 (d :: ds), r)

/-- Parse an integer literal, optionally signed. -/
def parseNum (s : List Char) : Option (Json × List Char) :=
  match s with
  | [] => none
  | c :: rest =>
    if c = '-' then (parseNat rest).map (fun p => (Json.num (-(p.1 : Int)), p.2))
    else (parseNat (c :: rest)).map (fun p => (Json.num (p.1 : Int), p.2))

/-- Value of one hexadecimal digit. -/
def hexVal (c : Char) : Option Nat :=
  if c.isDigit then some (c.toNat - 48)
  else if 'a' ≤ c && c ≤ 'f' then some (c.toNat - 87)
  else if 'A' ≤ c && c ≤ 'F' then some (c.toNat - 55)
  else none

/-- Combine four hexadecimal digits into a code point value. -/
def hex4 (h1 h2 h3 h4 : Char) : Option Nat :=
  match hexVal h1, hexVal h2, hexVal h3, hexVal h4 with
  | some a, some b, some g, some d => some (((a * 16 + b) * 16 + g) * 16 + d)
  | _, _, _, _ => none

/-- Resolve a single-character escape code. -/
def escCode (e : Char) : Option Char :=
  if e = '"' then some '"'
  else if e = '\\' then some '\\'
  else if e = '/' then some '/'
  else if e = 'b' then some '\x08'
  else if e = 'f' then some '\x0c'
  else if e = 'n' then some '\n'
  else if e = 'r' then some '\r'
  else if e = 't' then some '\t'
  else none

mutual

/-- Parse the body of a string literal (the opening quote already
consumed), returning the decoded characters and the input after the
closing quote. Raw control characters are rejected, as `serde_json`
rejects them. Fuelled; every step consumes input, so `parseString`'s
fuel is ample. -/
def parseStringBody : Nat → List Char → Option (List Char × List Char)
  | 0, _ => none
  | _ + 1, [] => none
  | fuel + 1, c :: cs =>
    if c = '"' then some ([], cs)
    else if c = '\\' then parseEsc fuel cs
    else if c.toNat < 32 then none
    else (parseStringBody fuel cs).map (fun p => (c :: p.1, p.2))

/-- Decode what follows a backslash and continue with the string body. -/
def parseEsc : Nat → List Char → Option (List Char × List Char)
  | 0, _ => none
  | _ + 1, [] => none
  | fuel + 1, e :: cs2 =>
    if e = 'u' then parseEscU fuel cs2
    else
      match escCode e with
      | some d => (parseStringBody fuel cs2).map (fun p => (d :: p.1, p.2))
      | none => none

/-- Decode the four hex digits of a `\u` escape and continue. -/
def parseEscU : Nat → List Char → Option (List Char × List Char)
  | 0, _ => none
  | fuel + 1, h1 :: h2 :: h3 :: h4 :: cs3 =>
    match hex4 h1 h2 h3 h4 with
    | some n =>
      if n < 55296 then
        (parseStringBody fuel cs3).map (fun p => (Char.ofNat n :: p.1, p.2))
      else none
    | none => none
  | _ + 1, _ => none

end

/-- A string-literal body parse with enough fuel for its whole input. -/
def parseString (s : List Char) : Option (List Char × List Char) :=
  parseStringBody (s.length + 1) s

mutual

/-- Parse one JSON value, skipping leading whitespace. -/
def parseVal : Nat → List Char → Option (Json × List Char)
  | 0, _ => none
  | fuel + 1, s =>
    match skipWs s with
    | [] => none
    | c :: cs =>
      if c = 'n' then
        match cs with
        | 'u' :: 'l' :: 'l' :: r => some (.null, r)
        | _ => none
      else if c = 't' then
        match cs with
        | 'r' :: 'u' :: 'e' :: r => some (.bool true, r)
        | _ => none
      else if c = 'f' then
        match cs with
        | 'a' :: 'l' :: 's' :: 'e' :: r => some (.bool false, r)
        | _ => none
      else if c = '"' then
        (parseString cs).map (fun p => (.str (String.mk p.1), p.2))
      else if c = '[' then
        match skipWs cs with
        | [] => none
        | d :: r =>
          if d = ']' then some (.arr [], r)
          else (parseArrItems fuel (d :: r)).map (fun p => (.arr p.1, p.2))
      else if c = '\x7b' then
        match skipWs cs with
        | [] => none
        | d :: r =>
          if d = '\x7d' then some (.obj [], r)
          else (parseObjItems fuel (d :: r)).map (fun p => (.obj p.1, p.2))
      else parseNum (c :: cs)

/-- Parse one or more comma-separated array items and the closing bracket. -/
def parseArrItems : Nat → List Char → Option (List Json × List Char)
  | 0, _ => none
  | fuel + 1, s =>
    match parseVal fuel s with
    | none => none
    | some (v, r) =>
      match skipWs r with
      | [] => none
      | d :: r2 =>
        if d = ',' then (parseArrItems fuel r2).map (fun p => (v :: p.1, p.2))
        else if d = ']' then some ([v], r2)
        else none

/-- Parse one or more comma-separated object entries and the closing
brace. Repeated keys are kept, in textual order. -/
def parseObjItems : Nat → List Char → Option (List (String × Json) × List Char)
  | 0, _ => none
  | fuel + 1, s =>
    match skipWs s with
    | [] => none
    | d :: cs =>
      if d = '"' then
        match parseString cs with
        | none => none
        | some (k, r) =>
          match skipWs r with
          | [] => none
          | e :: r2 =>
            if e = ':' then
              match parseVal fuel r2 with
              | none => none
              | some (v, r3) =>
                match skipWs r3 with
                | [] => none
                | g :: r4 =>
                  if g = ',' then
                    (parseObjItems fuel r4).map
                      (fun p => ((String.mk k, v) :: p.1, p.2))
                  else if g = '\x7d' then some ([(String.mk k, v)], r4)
                  else none
            else none
      else none

end

/-- The continuation after a number does not begin with a digit (the
boundary under which a number literal's extent is unambiguous). -/
def numSafe : List Char → Prop
  | [] => True
  | c :: _ => c.isDigit = false

/-- The model of `serde_json::from_str::<serde_json::Value>`: parse one
value and require only trailing whitespace after it. -/
def from_str (s : String) : Option Json :=
  match parseVal (2 * s.data.length + 4) s.data with
  | some (v, r) => if skipWs r = [] then some v else none
  | none => none

/-! ## The formatter (`SolinkJsonFormat` and `format_event`) -/

/-- The formatter configuration (`struct SolinkJsonFormat`). -/
structure SolinkJsonFormat where
  add_timestamp : Bool
  add_target : Bool
deriving Repr, DecidableEq

/-- `SolinkJsonFormat::new`. -/
def SolinkJsonFormat.new : SolinkJsonFormat :=
  { add_timestamp := true, add_target := true }

/-- `SolinkJsonFormat::with_timestamp`. -/
def SolinkJsonFormat.with_timestamp (s : SolinkJsonFormat) (b : Bool) :
    SolinkJsonFormat :=
  { s with add_timestamp := b }

/-- `SolinkJsonFormat::with_target`. -/
def SolinkJsonFormat.with_target (s : SolinkJsonFormat) (b : Bool) :
    SolinkJsonFormat :=
  { s with add_target := b }

/-- `impl Default for SolinkJsonFormat`. -/
def SolinkJsonFormat.default : SolinkJsonFormat :=
  SolinkJsonFormat.new

/-- `tracing::Level`. -/
inductive Level where
  | trace | debug | info | warn | error
deriving Repr, DecidableEq

/-- How `meta.level().as_serde()` serializes: the level's canonical text. -/
def Level.as_serde : Level → String
  | .trace => "TRACE"
  | .debug => "DEBUG"
  | .info => "INFO"
  | .warn => "WARN"
  | .error => "ERROR"

/-- The data `format_event` reads from a `tracing::Event`: severity,
target string, and the event's own fields in the order the event's
`record` visits them (values are what `SerdeMapVisitor` serializes). -/
structure EventModel where
  level : Level
  target : String
  fields : List (String × Json)
deriving Repr

/-- One span of the event's scope: its display name and the
`FormattedFields` blob held in its extension storage, when present. -/
structure SpanModel where
  name : String
  formatted_fields : Option String
deriving Repr

/-- The state of the open `serde_json` map serializer: the entries written
so far, in order. -/
abbrev SerializeMap := List (String × Json)

/-- `serialize_entry` appends one `key:value` pair to the open map. -/
def serialize_entry (m : SerializeMap) (k : String) (v : Json) : SerializeMap :=
  m ++ [(k, v)]

/-- `event.record(&mut visitor)`: the visitor writes each event field into
the open map in visit order. -/
def record (m : SerializeMap) (fields : List (String × Json)) : SerializeMap :=
  fields.foldl (fun acc kv => serialize_entry acc kv.1 kv.2) m

/-- One iteration of the scope loop: at index 0 write the `span` entry,
then parse the span's blob (`from_str(..).unwrap()`, `none` meaning the
unwrap panics) and, only when it is a JSON object, append its fields. -/
def scope_step (m : SerializeMap) (index : Nat) (span : SpanModel) :
    Option SerializeMap :=
  let m1 := if index = 0 then serialize_entry m "span" (Json.str span.name) else m
  match span.formatted_fields with
  | none => some m1
  | some data =>
    match from_str data with
    | none => none
    | some (Json.obj fields) =>
        some (fields.foldl (fun acc kv => serialize_entry acc kv.1 kv.2) m1)
    | some _ => some m1

/-- `for (index, span) in scope.enumerate()`. -/
def scope_loop (m : SerializeMap) (index : Nat) :
    List SpanModel → Option SerializeMap
  | [] => some m
  | span :: rest =>
    match scope_step m index span with
    | none => none
    | some m2 => scope_loop m2 (index + 1) rest

/-- The serializer map `format_event` has built when it reaches
`serializer_map.end()`: header entries, event fields, then the scope walk
(innermost span first). `none` models a panic in one of the `unwrap`s. -/
def format_entries (self : SolinkJsonFormat) (now : String) (event : EventModel)
    (scope : List SpanModel) : Option SerializeMap :=
  let m : SerializeMap := []
  let m := if self.add_timestamp then serialize_entry m "timestamp" (Json.str now) else m
  let m := serialize_entry m "level" (Json.str event.level.as_serde)
  let m := if self.add_target then serialize_entry m "target" (Json.str event.target) else m
  let m := record m event.fields
  scope_loop m 0 scope

/-- The in-memory buffer `s` as a string at the point of
`writer.write_str`: the rendered serializer map, no terminator yet. -/
def format_body (self : SolinkJsonFormat) (now : String) (event : EventModel)
    (scope : List SpanModel) : Option String :=
  match format_entries self now event scope with
  | none => none
  | some m => some (Json.obj m).render

/-- The full text a successful `format_event` call sends through the
writer: the rendered map followed by the `writeln!` line terminator. -/
def format_line (self : SolinkJsonFormat) (now : String) (event : EventModel)
    (scope : List SpanModel) : Option String :=
  match format_body self now event scope with
  | none => none
  | some body => some (body ++ "\n")

/-- What one `format_event` call can come to. -/
inductive FmtOutcome where
  | ok
  | err
  | panicked
deriving Repr, DecidableEq

/-- The caller-supplied writer: which chunks it accepts. -/
structure WriterModel where
  accepts : String → Bool

/-- The whole `format_event` call against a writer: build the body in
memory, then `writer.write_str(body).unwrap()` (a refused body write is a
panic) and `writeln!(writer)` (whose result is returned). The second
component lists the chunks the writer accepted. -/
def format_event (self : SolinkJsonFormat) (now : String) (event : EventModel)
    (scope : List SpanModel) (w : WriterModel) : FmtOutcome × List String :=
  match format_body self now event scope with
  | none => (.panicked, [])
  | some body =>
    if w.accepts body then
      if w.accepts "\n" then (.ok, [body, "\n"]) else (.err, [body])
    else (.panicked, [])

/-! ## Derived views used by the statements -/

/-- The fields a single span contributes: the entries of its blob when the
blob parses as a JSON object, nothing otherwise. -/
def scopeFields (span : SpanModel) : List (String × Json) :=
  match span.formatted_fields with
  | none => []
  | some data =>
    match from_str data with
    | some (Json.obj fields) => fields
    | _ => []

/-- The span's blob is absent or parses as some JSON value (the condition
under which `from_str(..).unwrap()` does not panic). -/
def blobOk (span : SpanModel) : Prop :=
  match span.formatted_fields with
  | none => True
  | some data => (from_str data).isSome

instance (span : SpanModel) : Decidable (blobOk span) := by
  unfold blobOk
  exact match span.formatted_fields with
  | none => inferInstanceAs (Decidable True)
  | some _ => inferInstanceAs (Decidable (_ = true))

/-- The `span` entry the serializer writes for the innermost span, if any. -/
def spanEntry : List SpanModel → List (String × Json)
  | [] => []
  | span :: _ => [("span", Json.str span.name)]

/-- The header the configuration determines: optional timestamp, level,
optional target. -/
def headerEntries (self : SolinkJsonFormat) (now : String) (event : EventModel) :
    List (String × Json) :=
  (if self.add_timestamp then [("timestamp", Json.str now)] else []) ++
    [("level", Json.str event.level.as_serde)] ++
    (if self.add_target then [("target", Json.str event.target)] else [])

/-- How often a key occurs in an entry list. -/
def countKey (k : String) (m : List (String × Json)) : Nat :=
  (m.filter (fun kv => kv.1 = k)).length

/-! ## Structural lemmas about the serializer map -/

theorem foldl_push_eq (fs : List (String × Json)) (m1 : List (String × Json)) :
    List.foldl (fun acc kv => acc ++ [kv]) m1 fs = m1 ++ fs := by
  induction fs generalizing m1 with
  | nil => simp
  | cons kv rest ih => simp [ih]

theorem record_eq (fields : List (String × Json)) (m : SerializeMap) :
    record m fields = m ++ fields := by
  induction fields generalizing m with
  | nil => simp [record]
  | cons kv rest ih =>
    show record (serialize_entry m kv.1 kv.2) rest = _
    rw [ih]
    simp [serialize_entry]

theorem scope_step_eq (m : SerializeMap) (i : Nat) (s : SpanModel)
    (h : blobOk s) :
    scope_step m i s =
      some ((if i = 0 then m ++ [("span", Json.str s.name)] else m) ++
        scopeFields s) := by
  unfold blobOk at h
  unfold scope_step scopeFields
  cases hf : s.formatted_fields with
  | none => simp [hf, serialize_entry]
  | some data =>
    rw [hf] at h
    cases hp : from_str data with
    | none => simp [hp] at h
    | some v =>
      cases v <;> simp [hp, serialize_entry, foldl_push_eq]

theorem scope_loop_pos (ch : List SpanModel) (m : SerializeMap) (i : Nat)
    (hi : i ≠ 0) (h : ∀ s ∈ ch, blobOk s) :
    scope_loop m i ch = some (m ++ (ch.map scopeFields).flatten) := by
  induction ch generalizing m i with
  | nil => simp [scope_loop]
  | cons s rest ih =>
    have hs := scope_step_eq m i s (h s (by simp))
    rw [if_neg hi] at hs
    simp only [scope_loop, hs]
    rw [ih (m ++ scopeFields s) (i + 1) (by omega)
      (fun t ht => h t (by simp [ht]))]
    simp

theorem scope_loop_zero (ch : List SpanModel) (m : SerializeMap)
    (h : ∀ s ∈ ch, blobOk s) :
    scope_loop m 0 ch =
      some (m ++ spanEntry ch ++ (ch.map scopeFields).flatten) := by
  cases ch with
  | nil => simp [scope_loop, spanEntry]
  | cons s rest =>
    have hs := scope_step_eq m 0 s (h s (by simp))
    rw [if_pos rfl] at hs
    simp only [scope_loop, hs]
    rw [scope_loop_pos rest _ 1 (by omega) (fun t ht => h t (by simp [ht]))]
    simp [spanEntry]

/-- The central decomposition: when every blob in the chain parses, the
finished serializer map is the header, the event's fields, the `span`
entry, then each scope's fields innermost first. -/
theorem format_entries_eq (self : SolinkJsonFormat) (now : String)
    (ev : EventModel) (ch : List SpanModel) (h : ∀ s ∈ ch, blobOk s) :
    format_entries self now ev ch =
      some (headerEntries self now ev ++ ev.fields ++ spanEntry ch ++
        (ch.map scopeFields).flatten) := by
  simp only [format_entries]
  rw [record_eq, scope_loop_zero _ _ h]
  unfold headerEntries
  rcases self with ⟨ts, tg⟩
  cases ts <;> cases tg <;> simp [serialize_entry]

theorem scope_step_frame (m : SerializeMap) (i : Nat) (s : SpanModel) :
    scope_step m i s = (scope_step [] i s).map (fun d => m ++ d) := by
  unfold scope_step
  cases hf : s.formatted_fields with
  | none => cases i <;> simp [serialize_entry]
  | some data =>
    cases hp : from_str data with
    | none => simp [hp]
    | some v =>
      cases v <;> cases i <;> simp [hp, serialize_entry, foldl_push_eq]

theorem scope_loop_frame (ch : List SpanModel) (m : SerializeMap) (i : Nat) :
    scope_loop m i ch = (scope_loop [] i ch).map (fun d => m ++ d) := by
  induction ch generalizing m i with
  | nil => simp [scope_loop]
  | cons s rest ih =>
    simp only [scope_loop]
    rw [scope_step_frame m i s]
    cases hs : scope_step [] i s with
    | none => simp
    | some d =>
      simp only [Option.map_some']
      rw [ih (m ++ d) (i + 1), ih d (i + 1)]
      cases scope_loop [] (i + 1) rest <;> simp

/-- The scope walk is independent of the header: the finished map is the
header and event fields in front of what the walk appends. -/
theorem format_entries_frame (self : SolinkJsonFormat) (now : String)
    (ev : EventModel) (ch : List SpanModel) :
    format_entries self now ev ch =
      (scope_loop [] 0 ch).map
        (fun d => headerEntries self now ev ++ ev.fields ++ d) := by
  simp only [format_entries]
  rw [record_eq, scope_loop_frame]
  unfold headerEntries
  rcases self with ⟨ts, tg⟩
  cases ts <;> cases tg <;>
    cases scope_loop [] 0 ch <;> simp [serialize_entry]

theorem countKey_append (k : String) (a b : List (String × Json)) :
    countKey k (a ++ b) = countKey k a + countKey k b := by
  simp [countKey, List.filter_append]

theorem countKey_flatten (k : String) (L : List (List (String × Json))) :
    countKey k L.flatten = (L.map (fun l => countKey k l)).sum := by
  induction L with
  | nil => rfl
  | cons l rest ih => simp [List.flatten, countKey_append, ih]

/-- A scope whose blob is invalid JSON makes the whole walk panic. -/
theorem scope_loop_fail (ch : List SpanModel) (m : SerializeMap) (i : Nat)
    (s : SpanModel) (hs : s ∈ ch) (hbad : ¬ blobOk s) :
    scope_loop m i ch = none := by
  induction ch generalizing m i with
  | nil => simp at hs
  | cons t rest ih =>
    rcases List.mem_cons.mp hs with rfl | hmem
    · have hstep : scope_step m i s = none := by
        unfold scope_step
        cases hf : s.formatted_fields with
        | none =>
          unfold blobOk at hbad
          rw [hf] at hbad
          simp at hbad
        | some data =>
          unfold blobOk at hbad
          rw [hf] at hbad
          simp only [Option.isSome] at hbad
          cases hp : from_str data with
          | none => simp [hp]
          | some v => simp [hp] at hbad
      simp [scope_loop, hstep]
    · simp only [scope_loop]
      cases scope_step m i t with
      | none => simp
      | some m2 => simpa using ih m2 (i + 1) hmem

/-! ## Rendering and parsing are inverse: characters and digits -/

theorem digit_ne (c d : Char) (h : c.isDigit = true) (hd : d.isDigit = false) :
    c ≠ d := by
  intro e
  subst e
  rw [h] at hd
  exact absurd hd (by decide)

theorem digit_not_ws (c : Char) (h : c.isDigit = true) : isWsChar c = false := by
  have h1 := digit_ne c ' ' h (by decide)
  have h2 := digit_ne c '\t' h (by decide)
  have h3 := digit_ne c '\n' h (by decide)
  have h4 := digit_ne c '\r' h (by decide)
  simp [isWsChar, h1, h2, h3, h4]

theorem digitChar_spec : ∀ m, m < 10 →
    (Char.ofNat (48 + m)).isDigit = true ∧
    (Char.ofNat (48 + m)).toNat = 48 + m := by decide

theorem digitChar_ne_zero : ∀ m, m < 10 → m ≠ 0 →
    Char.ofNat (48 + m) ≠ '0' := by decide

theorem hexVal_hexDigit : ∀ n, n < 16 → hexVal (hexDigit n) = some n := by
  decide

theorem natToDigitsGo_zero (n : Nat) (acc : List Char) :
    natToDigitsGo 0 n acc = acc := rfl

theorem natToDigitsGo_succ (f n : Nat) (acc : List Char) :
    natToDigitsGo (f + 1) n acc = if n = 0 then acc
      else natToDigitsGo f (n / 10) (Char.ofNat (48 + n % 10) :: acc) := rfl

theorem digitsVal_nil (a : Nat) : digitsVal a [] = a := rfl

theorem digitsVal_cons (a : Nat) (c : Char) (cs : List Char) :
    digitsVal a (c :: cs) = digitsVal (10 * a + (c.toNat - 48)) cs := rfl

theorem digitsVal_append (xs ys : List Char) (a : Nat) :
    digitsVal a (xs ++ ys) = digitsVal (digitsVal a xs) ys := by
  induction xs generalizing a with
  | nil => rw [List.nil_append, digitsVal_nil]
  | cons c t ih => rw [List.cons_append, digitsVal_cons, digitsVal_cons, ih]

theorem natToDigitsGo_spec : ∀ (n fuel : Nat) (acc : List Char), n ≤ fuel →
    ∃ pre, natToDigitsGo fuel n acc = pre ++ acc ∧
      (∀ c ∈ pre, c.isDigit = true) ∧
      (∀ a, digitsVal a pre = a * 10 ^ pre.length + n) ∧
      (n = 0 → pre = []) ∧
      (∀ d ds, pre = d :: ds → d ≠ '0') := by
  intro n
  induction n using Nat.strong_induction_on with
  | _ n ih =>
    intro fuel acc hle
    by_cases h0 : n = 0
    · subst h0
      refine ⟨[], ?_, by simp, fun a => by rw [digitsVal_nil]; simp,
        fun _ => rfl, by simp⟩
      cases fuel with
      | zero => rw [natToDigitsGo_zero]; rfl
      | succ f => rw [natToDigitsGo_succ, if_pos rfl]; rfl
    · cases fuel with
      | zero => omega
      | succ f =>
        have hstep : natToDigitsGo (f + 1) n acc =
            natToDigitsGo f (n / 10) (Char.ofNat (48 + n % 10) :: acc) := by
          rw [natToDigitsGo_succ, if_neg h0]
        obtain ⟨pre, e1, e2, e3, e4, e5⟩ :=
          ih (n / 10) (by omega) f (Char.ofNat (48 + n % 10) :: acc) (by omega)
        refine ⟨pre ++ [Char.ofNat (48 + n % 10)], ?_, ?_, ?_, ?_, ?_⟩
        · rw [hstep, e1]
          simp
        · intro c hc
          rcases List.mem_append.mp hc with h | h
          · exact e2 c h
          · simp at h
            subst h
            exact (digitChar_spec (n % 10) (by omega)).1
        · intro a
          rw [digitsVal_append, e3 a, digitsVal_cons, digitsVal_nil]
          simp only [List.length_append, List.length_singleton]
          rw [(digitChar_spec (n % 10) (by omega)).2, pow_succ]
          have hq : 10 * (a * 10 ^ pre.length) = a * (10 ^ pre.length * 10) := by
            ring
          omega
        · intro h
          exact absurd h h0
        · intro d ds hpre
          cases hp : pre with
          | nil =>
            rw [hp] at e3
            have hd10 : n / 10 = 0 := by
              have h30 := e3 0
              rw [digitsVal_nil] at h30
              simp at h30
              omega
            rw [hp] at hpre
            simp at hpre
            rw [← hpre.1]
            exact digitChar_ne_zero (n % 10) (by omega) (by omega)
          | cons d2 ds2 =>
            rw [hp] at hpre e5
            injection hpre with h1 h2
            subst h1
            exact e5 d2 ds2 rfl

theorem natToDigits_spec (n : Nat) :
    (∀ c ∈ natToDigits n, c.isDigit = true) ∧
    digitsVal 0 (natToDigits n) = n ∧
    natToDigits n ≠ [] ∧
    (∀ d ds, natToDigits n = d :: ds → (d = '0' → ds = [])) := by
  unfold natToDigits
  by_cases h0 : n = 0
  · subst h0
    refine ⟨by decide, by decide, by simp, ?_⟩
    intro d ds h
    simp at h
    simp [h.2]
  · obtain ⟨pre, e1, e2, e3, e4, e5⟩ := natToDigitsGo_spec n (n + 1) [] (by omega)
    rw [List.append_nil] at e1
    rw [if_neg h0, e1]
    refine ⟨e2, ?_, ?_, ?_⟩
    · rw [e3 0]
      simp
    · intro h
      rw [h] at e3
      have h30 := e3 0
      rw [digitsVal_nil] at h30
      simp at h30
      omega
    · intro d ds h hd
      exact absurd hd (e5 d ds h)

theorem takeDigits_split (ds rest : List Char)
    (hd : ∀ c ∈ ds, c.isDigit = true) (hr : numSafe rest) :
    takeDigits (ds ++ rest) = (ds, rest) := by
  induction ds with
  | nil =>
    cases rest with
    | nil => rfl
    | cons c t =>
      unfold numSafe at hr
      simp [takeDigits, hr]
  | cons c t ih =>
    have hc := hd c (by simp)
    simp only [List.cons_append, takeDigits, hc, if_true, List.append_eq]
    rw [ih (fun x hx => hd x (by simp [hx]))]

theorem parseNat_natToDigits (n : Nat) (rest : List Char) (hr : numSafe rest) :
    parseNat (natToDigits n ++ rest) = some (n, rest) := by
  obtain ⟨hdig, hval, hne, hzero⟩ := natToDigits_spec n
  unfold parseNat
  rw [takeDigits_split _ _ hdig hr]
  cases hsh : natToDigits n with
  | nil => exact absurd hsh hne
  | cons d ds =>
    rw [hsh] at hval
    simp only [hsh]
    by_cases hd0 : d = '0'
    · have hds : ds = [] := hzero d ds hsh hd0
      subst hds
      subst hd0
      simp [hval]
    · simp [hd0, hval]

theorem parseNum_renderInt (i : Int) (rest : List Char) (hr : numSafe rest) :
    parseNum (renderInt i ++ rest) = some (Json.num i, rest) := by
  unfold renderInt
  by_cases hneg : i < 0
  · rw [if_pos hneg]
    simp only [List.cons_append, parseNum, if_pos rfl]
    rw [parseNat_natToDigits _ _ hr]
    simp only [Option.map_some']
    rw [Int.ofNat_natAbs_of_nonpos (by omega)]
    simp
  · rw [if_neg hneg]
    obtain ⟨hdig, _, hne, _⟩ := natToDigits_spec i.toNat
    cases hsh : natToDigits i.toNat with
    | nil => exact absurd hsh hne
    | cons d ds =>
      have hd : d.isDigit = true := hdig d (by rw [hsh]; simp)
      have hdm : d ≠ '-' := digit_ne d '-' hd (by decide)
      simp only [hsh, List.cons_append, parseNum, if_neg hdm]
      rw [← List.cons_append, ← hsh, parseNat_natToDigits _ _ hr]
      simp only [Option.map_some']
      rw [Int.toNat_of_nonneg (by omega)]

/-! ## Rendering and parsing are inverse: strings -/

theorem psb_cons (f : Nat) (c : Char) (cs : List Char) :
    parseStringBody (f + 1) (c :: cs) =
      if c = '"' then some ([], cs)
      else if c = '\\' then parseEsc f cs
      else if c.toNat < 32 then none
      else (parseStringBody f cs).map
        (fun (p : List Char × List Char) => (c :: p.1, p.2)) := rfl

theorem hex4_eval (m : Nat) (hm : m < 32) :
    hex4 '0' '0' (hexDigit (m / 16)) (hexDigit (m % 16)) = some m := by
  unfold hex4
  rw [show hexVal '0' = some 0 from by decide,
    hexVal_hexDigit (m / 16) (by omega), hexVal_hexDigit (m % 16) (by omega)]
  show some (((0 * 16 + 0) * 16 + m / 16) * 16 + m % 16) = some m
  exact congrArg some (by omega)

theorem u_step (f m : Nat) (hm : m < 32) (cs3 : List Char) :
    parseEscU (f + 1)
        ('0' :: '0' :: hexDigit (m / 16) :: hexDigit (m % 16) :: cs3) =
      (parseStringBody f cs3).map (fun p => (Char.ofNat m :: p.1, p.2)) := by
  show (match hex4 '0' '0' (hexDigit (m / 16)) (hexDigit (m % 16)) with
    | some n =>
      if n < 55296 then
        (parseStringBody f cs3).map
          (fun (p : List Char × List Char) => (Char.ofNat n :: p.1, p.2))
      else none
    | none => (none : Option (List Char × List Char))) = _
  rw [hex4_eval m hm]
  have h55 : m < 55296 := by omega
  simp [h55]

theorem escapeList_cons_length (c : Char) (t : List Char) :
    (escapeList (c :: t)).length =
      (escapeChar c).length + (escapeList t).length := by
  show (escapeChar c ++ escapeList t).length = _
  simp

theorem parse_escList_fueled : ∀ (fuel : Nat) (l rest : List Char),
    (escapeList l).length + 2 ≤ fuel →
    parseStringBody fuel (escapeList l ++ '"' :: rest) = some (l, rest) := by
  intro fuel
  induction fuel using Nat.strong_induction_on with
  | _ fuel ih =>
    intro l rest hlen
    cases l with
    | nil =>
      cases fuel with
      | zero => omega
      | succ f => exact rfl
    | cons c t =>
      have hL := escapeList_cons_length c t
      show parseStringBody fuel
        ((escapeChar c ++ escapeList t) ++ '"' :: rest) = _
      rw [List.append_assoc]
      by_cases h1 : c = '"'
      · subst h1
        rw [show escapeChar '"' = ['\\', '"'] from rfl] at hL ⊢
        simp only [List.length_cons] at hL
        cases fuel with
        | zero => omega
        | succ f =>
          cases f with
          | zero => omega
          | succ f2 =>
            show (parseStringBody f2 (escapeList t ++ '"' :: rest)).map
              (fun p => ('"' :: p.1, p.2)) = _
            rw [ih f2 (by omega) t rest (by omega)]
            rfl
      · by_cases h2 : c = '\\'
        · subst h2
          rw [show escapeChar '\\' = ['\\', '\\'] from rfl] at hL ⊢
          simp only [List.length_cons] at hL
          cases fuel with
          | zero => omega
          | succ f =>
            cases f with
            | zero => omega
            | succ f2 =>
              show (parseStringBody f2 (escapeList t ++ '"' :: rest)).map
                (fun p => ('\\' :: p.1, p.2)) = _
              rw [ih f2 (by omega) t rest (by omega)]
              rfl
        · by_cases h3 : c = '\x08'
          · subst h3
            rw [show escapeChar '\x08' = ['\\', 'b'] from rfl] at hL ⊢
            simp only [List.length_cons] at hL
            cases fuel with
            | zero => omega
            | succ f =>
              cases f with
              | zero => omega
              | succ f2 =>
                show (parseStringBody f2 (escapeList t ++ '"' :: rest)).map
                  (fun p => ('\x08' :: p.1, p.2)) = _
                rw [ih f2 (by omega) t rest (by omega)]
                rfl
          · by_cases h4 : c = '\x0c'
            · subst h4
              rw [show escapeChar '\x0c' = ['\\', 'f'] from rfl] at hL ⊢
              simp only [List.length_cons] at hL
              cases fuel with
              | zero => omega
              | succ f =>
                cases f with
                | zero => omega
                | succ f2 =>
                  show (parseStringBody f2 (escapeList t ++ '"' :: rest)).map
                    (fun p => ('\x0c' :: p.1, p.2)) = _
                  rw [ih f2 (by omega) t rest (by omega)]
                  rfl
            · by_cases h5 : c = '\n'
              · subst h5
                rw [show escapeChar '\n' = ['\\', 'n'] from rfl] at hL ⊢
                simp only [List.length_cons] at hL
                cases fuel with
                | zero => omega
                | succ f =>
                  cases f with
                  | zero => omega
                  | succ f2 =>
                    show (parseStringBody f2 (escapeList t ++ '"' :: rest)).map
                      (fun p => ('\n' :: p.1, p.2)) = _
                    rw [ih f2 (by omega) t rest (by omega)]
                    rfl
              · by_cases h6 : c = '\r'
                · subst h6
                  rw [show escapeChar '\r' = ['\\', 'r'] from rfl] at hL ⊢
                  simp only [List.length_cons] at hL
                  cases fuel with
                  | zero => omega
                  | succ f =>
                    cases f with
                    | zero => omega
                    | succ f2 =>
                      show (parseStringBody f2
                          (escapeList t ++ '"' :: rest)).map
                        (fun p => ('\r' :: p.1, p.2)) = _
                      rw [ih f2 (by omega) t rest (by omega)]
                      rfl
                · by_cases h7 : c = '\t'
                  · subst h7
                    rw [show escapeChar '\t' = ['\\', 't'] from rfl] at hL ⊢
                    simp only [List.length_cons] at hL
                    cases fuel with
                    | zero => omega
                    | succ f =>
                      cases f with
                      | zero => omega
                      | succ f2 =>
                        show (parseStringBody f2
                            (escapeList t ++ '"' :: rest)).map
                          (fun p => ('\t' :: p.1, p.2)) = _
                        rw [ih f2 (by omega) t rest (by omega)]
                        rfl
                  · by_cases h8 : c.toNat < 32
                    · have hesc : escapeChar c = ['\\', 'u', '0', '0',
                          hexDigit (c.toNat / 16), hexDigit (c.toNat % 16)] := by
                        unfold escapeChar
                        rw [if_neg h1, if_neg h2, if_neg h3, if_neg h4,
                          if_neg h5, if_neg h6, if_neg h7, if_pos h8]
                      rw [hesc] at hL ⊢
                      simp only [List.length_cons] at hL
                      cases fuel with
                      | zero => omega
                      | succ f =>
                        cases f with
                        | zero => omega
                        | succ f2 =>
                          cases f2 with
                          | zero => omega
                          | succ f3 =>
                            show parseEscU (f3 + 1)
                              ('0' :: '0' :: hexDigit (c.toNat / 16) ::
                                hexDigit (c.toNat % 16) ::
                                (escapeList t ++ '"' :: rest)) = _
                            rw [u_step f3 c.toNat h8, Char.ofNat_toNat,
                              ih f3 (by omega) t rest (by omega)]
                            rfl
                    · have hesc : escapeChar c = [c] := by
                        unfold escapeChar
                        rw [if_neg h1, if_neg h2, if_neg h3, if_neg h4,
                          if_neg h5, if_neg h6, if_neg h7, if_neg h8]
                      rw [hesc] at hL ⊢
                      simp only [List.length_cons] at hL
                      cases fuel with
                      | zero => omega
                      | succ f =>
                        rw [List.cons_append, List.nil_append, psb_cons,
                          if_neg h1, if_neg h2, if_neg h8,
                          ih f (by omega) t rest (by omega)]
                        rfl

theorem parse_escapeList (l rest : List Char) :
    parseString (escapeList l ++ '"' :: rest) = some (l, rest) := by
  unfold parseString
  apply parse_escList_fueled
  simp

/-! ## Rendering and parsing are inverse: values -/

theorem skipWs_not_ws (c : Char) (t : List Char) (h : isWsChar c = false) :
    skipWs (c :: t) = c :: t := by
  simp [skipWs, h]

theorem natToDigits_ne_nil (n : Nat) : natToDigits n ≠ [] :=
  (natToDigits_spec n).2.2.1

theorem renderChars_ne_nil (j : Json) : renderChars j ≠ [] := by
  cases j with
  | null => simp [renderChars]
  | bool b => cases b <;> simp [renderChars]
  | num n =>
    show renderInt n ≠ []
    unfold renderInt
    by_cases h : n < 0
    · simp [h]
    · simp [h, natToDigits_ne_nil]
  | str s => simp [renderChars, renderString]
  | arr xs => simp [renderChars]
  | obj kvs => simp [renderChars]

/-- The first character of a rendered value: never whitespace, never a
closing bracket. -/
theorem render_head (j : Json) : ∃ c cs, renderChars j = c :: cs ∧
    isWsChar c = false ∧ c ≠ ']' := by
  cases j with
  | null => exact ⟨'n', _, rfl, by decide, by decide⟩
  | bool b =>
    cases b
    · exact ⟨'f', _, rfl, by decide, by decide⟩
    · exact ⟨'t', _, rfl, by decide, by decide⟩
  | num n =>
    show ∃ c cs, renderInt n = c :: cs ∧ _
    unfold renderInt
    by_cases h : n < 0
    · exact ⟨'-', _, by rw [if_pos h], by decide, by decide⟩
    · rw [if_neg h]
      obtain ⟨hdig, _, hne, _⟩ := natToDigits_spec n.toNat
      cases hsh : natToDigits n.toNat with
      | nil => exact absurd hsh hne
      | cons d ds =>
        have hd : d.isDigit = true := hdig d (by rw [hsh]; simp)
        exact ⟨d, ds, rfl, digit_not_ws d hd, digit_ne d ']' hd (by decide)⟩
  | str s => exact ⟨'"', _, rfl, by decide, by decide⟩
  | arr xs => exact ⟨'[', _, rfl, by decide, by decide⟩
  | obj kvs => exact ⟨'\x7b', _, rfl, by decide, by decide⟩

/-- One unfolding of `parseVal` on a non-whitespace head. -/
theorem pv_step (f : Nat) (c : Char) (cs : List Char)
    (hws : isWsChar c = false) :
    parseVal (f + 1) (c :: cs) =
      if c = 'n' then
        match cs with
        | 'u' :: 'l' :: 'l' :: r => some (.null, r)
        | _ => none
      else if c = 't' then
        match cs with
        | 'r' :: 'u' :: 'e' :: r => some (.bool true, r)
        | _ => none
      else if c = 'f' then
        match cs with
        | 'a' :: 'l' :: 's' :: 'e' :: r => some (.bool false, r)
        | _ => none
      else if c = '"' then
        (parseString cs).map (fun p => (.str (String.mk p.1), p.2))
      else if c = '[' then
        match skipWs cs with
        | [] => none
        | d :: r =>
          if d = ']' then some (.arr [], r)
          else (parseArrItems f (d :: r)).map (fun p => (.arr p.1, p.2))
      else if c = '\x7b' then
        match skipWs cs with
        | [] => none
        | d :: r =>
          if d = '\x7d' then some (.obj [], r)
          else (parseObjItems f (d :: r)).map (fun p => (.obj p.1, p.2))
      else parseNum (c :: cs) := by
  rw [parseVal, skipWs_not_ws c cs hws]

theorem pv_num (f : Nat) (c : Char) (cs : List Char) (h : c.isDigit = true) :
    parseVal (f + 1) (c :: cs) = parseNum (c :: cs) := by
  rw [pv_step f c cs (digit_not_ws c h)]
  rw [if_neg (digit_ne c 'n' h (by decide)),
    if_neg (digit_ne c 't' h (by decide)),
    if_neg (digit_ne c 'f' h (by decide)),
    if_neg (digit_ne c '"' h (by decide)),
    if_neg (digit_ne c '[' h (by decide)),
    if_neg (digit_ne c '\x7b' h (by decide))]

theorem pv_renderInt (f : Nat) (n : Int) (rest : List Char) :
    parseVal (f + 1) (renderInt n ++ rest) = parseNum (renderInt n ++ rest) := by
  unfold renderInt
  by_cases h : n < 0
  · rw [if_pos h, List.cons_append]
    exact rfl
  · rw [if_neg h]
    obtain ⟨hdig, _, hne, _⟩ := natToDigits_spec n.toNat
    cases hsh : natToDigits n.toNat with
    | nil => exact absurd hsh hne
    | cons d ds =>
      have hd : d.isDigit = true := hdig d (by rw [hsh]; simp)
      rw [List.cons_append]
      exact pv_num f d (ds ++ rest) hd

theorem numSafe_cons (c : Char) (t : List Char) (h : c.isDigit = false) :
    numSafe (c :: t) := h

theorem objItems_head (k : String) (v : Json) (kvs : List (String × Json)) :
    ∃ t, renderObjItems ((k, v) :: kvs) = '"' :: t := by
  cases kvs with
  | nil =>
    refine ⟨(escapeList k.data ++ ['"']) ++ ':' :: renderChars v, ?_⟩
    show ('"' :: (escapeList k.data ++ ['"'])) ++ ':' :: renderChars v = _
    rw [List.cons_append]
  | cons kv2 kvs3 =>
    refine ⟨((escapeList k.data ++ ['"']) ++ ':' :: renderChars v) ++
      ',' :: renderObjItems (kv2 :: kvs3), ?_⟩
    show (('"' :: (escapeList k.data ++ ['"'])) ++ ':' :: renderChars v) ++
      ',' :: renderObjItems (kv2 :: kvs3) = _
    rw [List.cons_append, List.cons_append]

/-- The central inverse property: a rendered value, followed by anything
that cannot extend a number literal, parses back to exactly that value. -/
theorem rt_main : ∀ fuel : Nat,
    (∀ (j : Json) (rest : List Char), (renderChars j).length ≤ fuel →
      numSafe rest → parseVal fuel (renderChars j ++ rest) = some (j, rest)) ∧
    (∀ (x : Json) (xs : List Json) (rest : List Char),
      (renderArrItems (x :: xs)).length + 1 ≤ fuel →
      parseArrItems fuel (renderArrItems (x :: xs) ++ ']' :: rest) =
        some (x :: xs, rest)) ∧
    (∀ (k : String) (v : Json) (kvs : List (String × Json))
      (rest : List Char),
      (renderObjItems ((k, v) :: kvs)).length + 1 ≤ fuel →
      parseObjItems fuel (renderObjItems ((k, v) :: kvs) ++ '\x7d' :: rest) =
        some ((k, v) :: kvs, rest)) := by
  intro fuel
  induction fuel using Nat.strong_induction_on with
  | _ fuel ih =>
    refine ⟨?_, ?_, ?_⟩
    · intro j rest hlen hsafe
      cases fuel with
      | zero =>
        exfalso
        obtain ⟨c, cs, he, _, _⟩ := render_head j
        rw [he] at hlen
        simp at hlen
      | succ f =>
        cases j with
        | null => exact rfl
        | bool b => cases b <;> exact rfl
        | num n =>
          rw [show renderChars (.num n) = renderInt n from rfl, pv_renderInt]
          exact parseNum_renderInt n rest hsafe
        | str s =>
          rw [show renderChars (.str s) = '"' :: (escapeList s.data ++ ['"'])
            from rfl, List.cons_append, List.append_assoc,
            List.singleton_append]
          show (parseString (escapeList s.data ++ '"' :: rest)).map
            (fun p => (Json.str (String.mk p.1), p.2)) = _
          rw [parse_escapeList s.data rest]
          rfl
        | arr xs =>
          cases xs with
          | nil => exact rfl
          | cons x xs2 =>
            have hlen2 : (renderArrItems (x :: xs2)).length + 2 ≤ f + 1 := by
              rw [show renderChars (.arr (x :: xs2)) =
                '[' :: (renderArrItems (x :: xs2) ++ [']']) from rfl] at hlen
              simp at hlen
              omega
            obtain ⟨c1, t1, he1, hws1, hbr1⟩ := render_head x
            have hhead : ∃ t2, renderArrItems (x :: xs2) = c1 :: t2 := by
              cases xs2 with
              | nil => exact ⟨t1, he1⟩
              | cons y ys =>
                refine ⟨t1 ++ ',' :: renderArrItems (y :: ys), ?_⟩
                rw [show renderArrItems (x :: y :: ys) =
                  renderChars x ++ ',' :: renderArrItems (y :: ys) from rfl,
                  he1, List.cons_append]
            obtain ⟨t2, ht2⟩ := hhead
            rw [show renderChars (.arr (x :: xs2)) =
              '[' :: (renderArrItems (x :: xs2) ++ [']']) from rfl,
              List.cons_append, List.append_assoc, List.singleton_append,
              ht2, List.cons_append]
            show (match skipWs (c1 :: (t2 ++ ']' :: rest)) with
              | [] => none
              | d :: r =>
                if d = ']' then some (Json.arr [], r)
                else (parseArrItems f (d :: r)).map
                  (fun (p : List Json × List Char) =>
                    (Json.arr p.1, p.2))) = _
            rw [skipWs_not_ws _ _ hws1]
            show (if c1 = ']' then some (Json.arr [], t2 ++ ']' :: rest)
              else (parseArrItems f (c1 :: (t2 ++ ']' :: rest))).map
                (fun (p : List Json × List Char) =>
                  (Json.arr p.1, p.2))) = _
            rw [if_neg hbr1, ← List.cons_append, ← ht2,
              (ih f (by omega)).2.1 x xs2 rest (by omega)]
            rfl
        | obj kvs =>
          cases kvs with
          | nil => exact rfl
          | cons kv kvs2 =>
            obtain ⟨k, v⟩ := kv
            have hlen2 : (renderObjItems ((k, v) :: kvs2)).length + 2 ≤
                f + 1 := by
              rw [show renderChars (.obj ((k, v) :: kvs2)) =
                '\x7b' :: (renderObjItems ((k, v) :: kvs2) ++ ['\x7d']) from
                rfl] at hlen
              simp at hlen
              omega
            obtain ⟨t2, ht2⟩ := objItems_head k v kvs2
            rw [show renderChars (.obj ((k, v) :: kvs2)) =
              '\x7b' :: (renderObjItems ((k, v) :: kvs2) ++ ['\x7d']) from rfl,
              List.cons_append, List.append_assoc, List.singleton_append,
              ht2, List.cons_append]
            show (parseObjItems f ('"' :: (t2 ++ '\x7d' :: rest))).map
              (fun (p : List (String × Json) × List Char) =>
                (Json.obj p.1, p.2)) = _
            rw [← List.cons_append, ← ht2,
              (ih f (by omega)).2.2 k v kvs2 rest (by omega)]
            rfl
    · intro x xs rest hA
      cases fuel with
      | zero => omega
      | succ f =>
        rw [parseArrItems]
        cases xs with
        | nil =>
          rw [show renderArrItems [x] = renderChars x from rfl] at hA ⊢
          have hV := (ih f (by omega)).1 x (']' :: rest) (by omega)
            (numSafe_cons _ _ (by decide))
          simp only [hV]
          exact rfl
        | cons y ys =>
          rw [show renderArrItems (x :: y :: ys) =
            renderChars x ++ ',' :: renderArrItems (y :: ys) from rfl]
            at hA ⊢
          rw [List.append_assoc, List.cons_append]
          have hlx : 1 ≤ (renderChars x).length := by
            obtain ⟨c, cs, he, _, _⟩ := render_head x
            rw [he]
            simp
          have hlA : (renderChars x).length +
              ((renderArrItems (y :: ys)).length + 1) ≤ f := by
            simpa using hA
          have hV := (ih f (by omega)).1 x
            (',' :: (renderArrItems (y :: ys) ++ ']' :: rest))
            (by omega) (numSafe_cons _ _ (by decide))
          simp only [hV]
          show (parseArrItems f (renderArrItems (y :: ys) ++ ']' :: rest)).map
            (fun (p : List Json × List Char) => (x :: p.1, p.2)) = _
          rw [(ih f (by omega)).2.1 y ys rest (by omega)]
          rfl
    · intro k v kvs rest hO
      cases fuel with
      | zero => omega
      | succ f =>
        rw [parseObjItems]
        cases kvs with
        | nil =>
          rw [show renderObjItems [(k, v)] =
            ('"' :: (escapeList k.data ++ ['"'])) ++ ':' :: renderChars v
            from rfl] at hO ⊢
          have hlv : 1 ≤ (renderChars v).length := by
            obtain ⟨c, cs, he, _, _⟩ := render_head v
            rw [he]
            simp
          have hlO : (escapeList k.data).length +
              ((renderChars v).length + 1 + 1) + 1 ≤ f := by
            simpa using hO
          simp only [List.cons_append, List.append_assoc,
            List.singleton_append]
          show (match parseString (escapeList k.data ++ '"' :: ':' ::
              (renderChars v ++ '\x7d' :: rest)) with
            | none => none
            | some (kd, r) =>
              match skipWs r with
              | [] => none
              | e :: r2 =>
                if e = ':' then
                  match parseVal f r2 with
                  | none => none
                  | some (w, r3) =>
                    match skipWs r3 with
                    | [] => none
                    | g :: r4 =>
                      if g = ',' then
                        (parseObjItems f r4).map
                          (fun (p : List (String × Json) × List Char) =>
                            ((String.mk kd, w) :: p.1, p.2))
                      else if g = '\x7d' then
                        some ([(String.mk kd, w)], r4)
                      else none
                else none) = _
          rw [parse_escapeList k.data
            (':' :: (renderChars v ++ '\x7d' :: rest))]
          show (match parseVal f (renderChars v ++ '\x7d' :: rest) with
            | none => none
            | some (w, r3) =>
              match skipWs r3 with
              | [] => none
              | g :: r4 =>
                if g = ',' then
                  (parseObjItems f r4).map
                    (fun (p : List (String × Json) × List Char) =>
                      ((String.mk k.data, w) :: p.1, p.2))
                else if g = '\x7d' then some ([(String.mk k.data, w)], r4)
                else none) = _
          rw [(ih f (by omega)).1 v ('\x7d' :: rest) (by omega)
            (numSafe_cons _ _ (by decide))]
          exact rfl
        | cons kv2 kvs3 =>
          obtain ⟨k2, v2⟩ := kv2
          rw [show renderObjItems ((k, v) :: (k2, v2) :: kvs3) =
            (('"' :: (escapeList k.data ++ ['"'])) ++ ':' :: renderChars v) ++
              ',' :: renderObjItems ((k2, v2) :: kvs3) from rfl] at hO ⊢
          have hlv : 1 ≤ (renderChars v).length := by
            obtain ⟨c, cs, he, _, _⟩ := render_head v
            rw [he]
            simp
          have hlO : (escapeList k.data).length +
              ((renderChars v).length +
                ((renderObjItems ((k2, v2) :: kvs3)).length + 1) + 1 + 1) +
              1 ≤ f := by
            simpa using hO
          simp only [List.cons_append, List.append_assoc,
            List.singleton_append]
          show (match parseString (escapeList k.data ++ '"' :: ':' ::
              (renderChars v ++ ',' ::
                (renderObjItems ((k2, v2) :: kvs3) ++ '\x7d' :: rest))) with
            | none => none
            | some (kd, r) =>
              match skipWs r with
              | [] => none
              | e :: r2 =>
                if e = ':' then
                  match parseVal f r2 with
                  | none => none
                  | some (w, r3) =>
                    match skipWs r3 with
                    | [] => none
                    | g :: r4 =>
                      if g = ',' then
                        (parseObjItems f r4).map
                          (fun (p : List (String × Json) × List Char) =>
                            ((String.mk kd, w) :: p.1, p.2))
                      else if g = '\x7d' then
                        some ([(String.mk kd, w)], r4)
                      else none
                else none) = _
          rw [parse_escapeList k.data (':' :: (renderChars v ++ ',' ::
            (renderObjItems ((k2, v2) :: kvs3) ++ '\x7d' :: rest)))]
          show (match parseVal f (renderChars v ++ ',' ::
              (renderObjItems ((k2, v2) :: kvs3) ++ '\x7d' :: rest)) with
            | none => none
            | some (w, r3) =>
              match skipWs r3 with
              | [] => none
              | g :: r4 =>
                if g = ',' then
                  (parseObjItems f r4).map
                    (fun (p : List (String × Json) × List Char) =>
                      ((String.mk k.data, w) :: p.1, p.2))
                else if g = '\x7d' then some ([(String.mk k.data, w)], r4)
                else none) = _
          rw [(ih f (by omega)).1 v (',' ::
              (renderObjItems ((k2, v2) :: kvs3) ++ '\x7d' :: rest))
            (by omega) (numSafe_cons _ _ (by decide))]
          show (parseObjItems f
              (renderObjItems ((k2, v2) :: kvs3) ++ '\x7d' :: rest)).map
            (fun (p : List (String × Json) × List Char) =>
              ((String.mk k.data, v) :: p.1, p.2)) = _
          rw [(ih f (by omega)).2.2 k2 v2 kvs3 rest (by omega)]
          rfl

/-! ## The rendered body contains no line terminator -/

theorem hexDigit_ne_newline : ∀ m, m < 16 → ¬ ('\n' = hexDigit m) := by
  decide

theorem escapeChar_no_newline (c : Char) : '\n' ∉ escapeChar c := by
  by_cases h1 : c = '"'
  · subst h1; decide
  · by_cases h2 : c = '\\'
    · subst h2; decide
    · by_cases h3 : c = '\x08'
      · subst h3; decide
      · by_cases h4 : c = '\x0c'
        · subst h4; decide
        · by_cases h5 : c = '\n'
          · subst h5; decide
          · by_cases h6 : c = '\r'
            · subst h6; decide
            · by_cases h7 : c = '\t'
              · subst h7; decide
              · by_cases h8 : c.toNat < 32
                · have hesc : escapeChar c = ['\\', 'u', '0', '0',
                      hexDigit (c.toNat / 16), hexDigit (c.toNat % 16)] := by
                    unfold escapeChar
                    rw [if_neg h1, if_neg h2, if_neg h3, if_neg h4, if_neg h5,
                      if_neg h6, if_neg h7, if_pos h8]
                  rw [hesc]
                  intro hm
                  simp only [List.mem_cons, List.not_mem_nil, or_false] at hm
                  rcases hm with h | h | h | h | h | h
                  · exact absurd h (by decide)
                  · exact absurd h (by decide)
                  · exact absurd h (by decide)
                  · exact absurd h (by decide)
                  · exact hexDigit_ne_newline (c.toNat / 16) (by omega) h
                  · exact hexDigit_ne_newline (c.toNat % 16) (by omega) h
                · have hesc : escapeChar c = [c] := by
                    unfold escapeChar
                    rw [if_neg h1, if_neg h2, if_neg h3, if_neg h4, if_neg h5,
                      if_neg h6, if_neg h7, if_neg h8]
                  rw [hesc]
                  intro hm
                  simp only [List.mem_singleton] at hm
                  exact h5 hm.symm

theorem escapeList_no_newline (l : List Char) : '\n' ∉ escapeList l := by
  induction l with
  | nil => simp [escapeList]
  | cons c t ih =>
    show '\n' ∉ escapeChar c ++ escapeList t
    rw [List.mem_append]
    rintro (h | h)
    · exact escapeChar_no_newline c h
    · exact ih h

theorem renderString_no_newline (s : String) : '\n' ∉ renderString s := by
  unfold renderString
  intro hm
  simp only [List.mem_cons, List.mem_append, List.not_mem_nil,
    or_false] at hm
  rcases hm with (h | h) | h
  · exact absurd h (by decide)
  · exact escapeList_no_newline s.data h
  · exact absurd h (by decide)

theorem natToDigits_no_newline (n : Nat) : '\n' ∉ natToDigits n := by
  intro hm
  have := (natToDigits_spec n).1 '\n' hm
  exact absurd this (by decide)

theorem renderInt_no_newline (n : Int) : '\n' ∉ renderInt n := by
  unfold renderInt
  by_cases h : n < 0
  · rw [if_pos h, List.mem_cons]
    rintro (e | e)
    · exact absurd e (by decide)
    · exact natToDigits_no_newline _ e
  · rw [if_neg h]
    exact natToDigits_no_newline _

theorem no_newline : ∀ fuel : Nat,
    (∀ j : Json, (renderChars j).length ≤ fuel → '\n' ∉ renderChars j) ∧
    (∀ xs : List Json, (renderArrItems xs).length + 1 ≤ fuel →
      '\n' ∉ renderArrItems xs) ∧
    (∀ kvs : List (String × Json), (renderObjItems kvs).length + 1 ≤ fuel →
      '\n' ∉ renderObjItems kvs) := by
  intro fuel
  induction fuel using Nat.strong_induction_on with
  | _ fuel ih =>
    refine ⟨?_, ?_, ?_⟩
    · intro j hlen
      cases j with
      | null => decide
      | bool b => cases b <;> decide
      | num n => exact renderInt_no_newline n
      | str s => exact renderString_no_newline s
      | arr xs =>
        show '\n' ∉ '[' :: (renderArrItems xs ++ [']'])
        rw [List.mem_cons, List.mem_append]
        have hlen2 : (renderArrItems xs).length + 2 ≤ fuel := by
          rw [show renderChars (.arr xs) =
            '[' :: (renderArrItems xs ++ [']']) from rfl] at hlen
          simp at hlen
          omega
        rintro (h | h | h)
        · exact absurd h (by decide)
        · exact (ih ((renderArrItems xs).length + 1) (by omega)).2.1 xs
            le_rfl h
        · exact absurd h (by decide)
      | obj kvs =>
        show '\n' ∉ '\x7b' :: (renderObjItems kvs ++ ['\x7d'])
        rw [List.mem_cons, List.mem_append]
        have hlen2 : (renderObjItems kvs).length + 2 ≤ fuel := by
          rw [show renderChars (.obj kvs) =
            '\x7b' :: (renderObjItems kvs ++ ['\x7d']) from rfl] at hlen
          simp at hlen
          omega
        rintro (h | h | h)
        · exact absurd h (by decide)
        · exact (ih ((renderObjItems kvs).length + 1) (by omega)).2.2 kvs
            le_rfl h
        · exact absurd h (by decide)
    · intro xs hlen
      cases xs with
      | nil => simp [renderArrItems]
      | cons x xs2 =>
        cases xs2 with
        | nil =>
          rw [show renderArrItems [x] = renderChars x from rfl] at hlen ⊢
          exact (ih (renderChars x).length (by omega)).1 x le_rfl
        | cons y ys =>
          rw [show renderArrItems (x :: y :: ys) =
            renderChars x ++ ',' :: renderArrItems (y :: ys) from rfl]
            at hlen ⊢
          have hlx : 1 ≤ (renderChars x).length := by
            obtain ⟨c, cs, he, _, _⟩ := render_head x
            rw [he]
            simp
          rw [List.length_append, List.length_cons] at hlen
          rw [List.mem_append, List.mem_cons]
          rintro (h | h | h)
          · exact (ih (renderChars x).length (by omega)).1 x le_rfl h
          · exact absurd h (by decide)
          · exact (ih ((renderArrItems (y :: ys)).length + 1)
              (by omega)).2.1 (y :: ys) le_rfl h
    · intro kvs hlen
      cases kvs with
      | nil => simp [renderObjItems]
      | cons kv kvs2 =>
        obtain ⟨k, v⟩ := kv
        cases kvs2 with
        | nil =>
          rw [show renderObjItems [(k, v)] =
            renderString k ++ ':' :: renderChars v from rfl] at hlen ⊢
          rw [List.length_append, List.length_cons] at hlen
          have hlk : 1 ≤ (renderString k).length := by
            unfold renderString
            simp
          rw [List.mem_append, List.mem_cons]
          rintro (h | h | h)
          · exact renderString_no_newline k h
          · exact absurd h (by decide)
          · exact (ih (renderChars v).length (by omega)).1 v le_rfl h
        | cons kv2 kvs3 =>
          rw [show renderObjItems ((k, v) :: kv2 :: kvs3) =
            (renderString k ++ ':' :: renderChars v) ++
              ',' :: renderObjItems (kv2 :: kvs3) from rfl] at hlen ⊢
          rw [List.length_append, List.length_append, List.length_cons,
            List.length_cons] at hlen
          have hlk : 1 ≤ (renderString k).length := by
            unfold renderString
            simp
          rw [List.mem_append, List.mem_append, List.mem_cons, List.mem_cons]
          rintro ((h | h | h) | h | h)
          · exact renderString_no_newline k h
          · exact absurd h (by decide)
          · exact (ih (renderChars v).length (by omega)).1 v le_rfl h
          · exact absurd h (by decide)
          · exact (ih ((renderObjItems (kv2 :: kvs3)).length + 1)
              (by omega)).2.2 (kv2 :: kvs3) le_rfl h

theorem renderChars_no_newline (j : Json) : '\n' ∉ renderChars j :=
  (no_newline (renderChars j).length).1 j le_rfl

/-- Parsing inverts rendering wholesale. -/
theorem from_str_render (j : Json) : from_str (Json.render j) = some j := by
  show (match parseVal (2 * (renderChars j).length + 4) (renderChars j) with
    | some (v, r) => if skipWs r = [] then some v else none
    | none => none) = some j
  have hV := (rt_main (2 * (renderChars j).length + 4)).1 j [] (by omega)
    trivial
  rw [List.append_nil] at hV
  simp only [hV]
  rfl

/-- The emitted line is the rendered body plus exactly one terminator. -/
theorem line_newline_count (j : Json) :
    (j.render ++ "\n").data.count '\n' = 1 := by
  show (j.render.data ++ "\n".data).count '\n' = 1
  rw [List.count_append]
  have h0 : List.count '\n' j.render.data = 0 :=
    List.count_eq_zero.mpr (renderChars_no_newline j)
  rw [h0]
  rfl

/-! ## The claims -/

/-- C9: a new serializer has both flags enabled, `Default` equals `new()`,
and each fluent setter changes only its own flag. -/
theorem config_defaults_and_setters :
    SolinkJsonFormat.new.add_timestamp = true ∧
    SolinkJsonFormat.new.add_target = true ∧
    SolinkJsonFormat.default = SolinkJsonFormat.new ∧
    (∀ (c : SolinkJsonFormat) (b : Bool),
      (c.with_timestamp b).add_timestamp = b ∧
      (c.with_timestamp b).add_target = c.add_target ∧
      (c.with_target b).add_target = b ∧
      (c.with_target b).add_timestamp = c.add_timestamp) :=
  ⟨rfl, rfl, rfl, fun _ _ => ⟨rfl, rfl, rfl, rfl⟩⟩

/-- C6: the concrete scenario — level INFO, target `svc::handler`,
timestamp disabled, fields `message="Test"` and `z=10`, scope chain
`child{y:9}` then `parent{x:7}` — produces exactly the expected line. -/
theorem concrete_scenario_line :
    format_line (SolinkJsonFormat.new.with_timestamp false) ""
      { level := .info, target := "svc::handler",
        fields := [("message", Json.str "Test"), ("z", Json.num 10)] }
      [{ name := "child", formatted_fields := some "\x7b\"y\":9\x7d" },
       { name := "parent", formatted_fields := some "\x7b\"x\":7\x7d" }] =
      some "\x7b\"level\":\"INFO\",\"target\":\"svc::handler\",\"message\":\"Test\",\"z\":10,\"span\":\"child\",\"y\":9,\"x\":7\x7d\n" :=
  rfl

/-- C1: whenever every blob parses, the emitted object's keys come in the
fixed order: optional `timestamp`, `level`, optional `target`, the event's
own fields in production order, `span` for a non-empty chain, then each
scope's recorded fields innermost first, and a line terminator follows. -/
theorem format_event_key_order (self : SolinkJsonFormat) (now : String)
    (ev : EventModel) (ch : List SpanModel) (h : ∀ s ∈ ch, blobOk s) :
    format_line self now ev ch =
      some ((Json.obj (
        (if self.add_timestamp then [("timestamp", Json.str now)] else []) ++
        [("level", Json.str ev.level.as_serde)] ++
        (if self.add_target then [("target", Json.str ev.target)] else []) ++
        ev.fields ++ spanEntry ch ++
        (ch.map scopeFields).flatten)).render ++ "\n") := by
  unfold format_line format_body
  rw [format_entries_eq self now ev ch h]
  simp [headerEntries]

theorem format_event_key_order_witness :
    (∀ s ∈ [SpanModel.mk "p" (some "\x7b\"x\":7\x7d")], blobOk s) ∧
    format_line SolinkJsonFormat.new "t"
      { level := .info, target := "app", fields := [("z", Json.num 1)] }
      [SpanModel.mk "p" (some "\x7b\"x\":7\x7d")] =
      some ((Json.obj ([("timestamp", Json.str "t")] ++
        [("level", Json.str "INFO")] ++ [("target", Json.str "app")] ++
        [("z", Json.num 1)] ++
        spanEntry [SpanModel.mk "p" (some "\x7b\"x\":7\x7d")] ++
        ([SpanModel.mk "p" (some "\x7b\"x\":7\x7d")].map
          scopeFields).flatten)).render ++ "\n") :=
  ⟨by decide, format_event_key_order _ _ _ _ (by decide)⟩

/-- C4: scope field sets are concatenated innermost first, and the number
of entries a key gets is the sum over scopes — no deduplication. -/
theorem scope_fields_concatenated_no_dedup (self : SolinkJsonFormat)
    (now : String) (ev : EventModel) (ch : List SpanModel)
    (h : ∀ s ∈ ch, blobOk s) :
    format_entries self now ev ch =
      some (headerEntries self now ev ++ ev.fields ++ spanEntry ch ++
        (ch.map scopeFields).flatten) ∧
    ∀ k, countKey k ((ch.map scopeFields).flatten) =
      ((ch.map (fun s => countKey k (scopeFields s))).sum) := by
  refine ⟨format_entries_eq self now ev ch h, fun k => ?_⟩
  rw [countKey_flatten, List.map_map]
  rfl

theorem scope_fields_concatenated_no_dedup_witness :
    (∀ s ∈ [SpanModel.mk "a" (some "\x7b\"x\":1\x7d"),
            SpanModel.mk "b" (some "\x7b\"x\":2\x7d")], blobOk s) ∧
    countKey "x" (([SpanModel.mk "a" (some "\x7b\"x\":1\x7d"),
        SpanModel.mk "b" (some "\x7b\"x\":2\x7d")].map scopeFields).flatten) =
      (([SpanModel.mk "a" (some "\x7b\"x\":1\x7d"),
        SpanModel.mk "b" (some "\x7b\"x\":2\x7d")].map
          (fun s => countKey "x" (scopeFields s))).sum) :=
  ⟨by decide,
    (scope_fields_concatenated_no_dedup SolinkJsonFormat.new "t"
      { level := .info, target := "app", fields := [] } _ (by decide)).2 "x"⟩

/-- C3 as stated is false: a scope whose recorded fields themselves use
the key name `span` yields two `span` keys in the output of a length-1
chain. -/
theorem span_key_not_unique_cex :
    (format_entries SolinkJsonFormat.new "t"
      { level := .info, target := "app", fields := [] }
      [SpanModel.mk "a" (some "\x7b\"span\":1\x7d")]).map
      (fun m => countKey "span" m) = some 2 :=
  rfl

/-- C3 amended: for a non-empty chain the serializer itself writes the
`span` entry exactly once — right after the event's fields, valued at the
innermost scope's display name, regardless of the chain's length — and for
an empty chain it writes none; any further key named `span` can only come
from the event's own fields or a scope's recorded fields. -/
theorem span_entry_written_once (self : SolinkJsonFormat) (now : String)
    (ev : EventModel) (s : SpanModel) (rest : List SpanModel)
    (h : ∀ t ∈ s :: rest, blobOk t) :
    format_entries self now ev (s :: rest) =
      some ((headerEntries self now ev ++ ev.fields) ++
        ("span", Json.str s.name) :: ((s :: rest).map scopeFields).flatten) ∧
    (∀ m, format_entries self now ev (s :: rest) = some m →
      countKey "span" m = 1 + countKey "span" ev.fields +
        countKey "span" (((s :: rest).map scopeFields).flatten)) ∧
    format_entries self now ev [] =
      some (headerEntries self now ev ++ ev.fields) := by
  have hdr0 : countKey "span" (headerEntries self now ev) = 0 := by
    unfold headerEntries countKey
    rcases self with ⟨ts, tg⟩
    cases ts <;> cases tg <;> simp
  have hmain := format_entries_eq self now ev (s :: rest) h
  rw [spanEntry] at hmain
  refine ⟨by rw [hmain]; simp, fun m hm => ?_, ?_⟩
  · rw [hmain] at hm
    cases hm
    have h1 : countKey "span" [("span", Json.str s.name)] = 1 := by
      simp [countKey]
    simp only [countKey_append, hdr0, h1]
    omega
  · have := format_entries_eq self now ev [] (by simp)
    rw [spanEntry] at this
    simpa using this

theorem span_entry_written_once_witness :
    (∀ t ∈ [SpanModel.mk "a" (some "\x7b\"y\":9\x7d")], blobOk t) ∧
    format_entries SolinkJsonFormat.new "t"
      { level := .info, target := "app", fields := [] }
      [SpanModel.mk "a" (some "\x7b\"y\":9\x7d")] =
      some ((headerEntries SolinkJsonFormat.new "t"
          { level := .info, target := "app", fields := [] } ++ []) ++
        ("span", Json.str "a") ::
          ([SpanModel.mk "a" (some "\x7b\"y\":9\x7d")].map
            scopeFields).flatten) :=
  ⟨by decide,
    (span_entry_written_once SolinkJsonFormat.new "t"
      { level := .info, target := "app", fields := [] }
      (SpanModel.mk "a" (some "\x7b\"y\":9\x7d")) [] (by decide)).1⟩

/-- C5 as stated is false: with the timestamp flag off, an event whose own
fields contain a key named `timestamp` still puts that key in the output. -/
theorem timestamp_key_not_absent_cex :
    (format_entries (SolinkJsonFormat.new.with_timestamp false) "t"
      { level := .info, target := "app",
        fields := [("timestamp", Json.num 1)] } []).map
      (fun m => countKey "timestamp" m) = some 1 :=
  rfl

/-- C5 amended: disabling a flag removes exactly the serializer's own
`timestamp` (respectively `target`) entry and leaves every remaining entry
in the same relative order; the key name itself can still appear if the
event's or a scope's own fields use it. -/
theorem flag_off_removes_only_own_entry (ts tg : Bool) (now : String)
    (ev : EventModel) (ch : List SpanModel) :
    format_entries ⟨true, tg⟩ now ev ch =
      (format_entries ⟨false, tg⟩ now ev ch).map
        (fun m => ("timestamp", Json.str now) :: m) ∧
    format_entries ⟨ts, true⟩ now ev ch =
      (format_entries ⟨ts, false⟩ now ev ch).map
        (fun m => m.take (if ts then 2 else 1) ++
          [("target", Json.str ev.target)] ++
          m.drop (if ts then 2 else 1)) := by
  constructor
  · rw [format_entries_frame, format_entries_frame]
    cases scope_loop [] 0 ch <;> simp [headerEntries]
  · rw [format_entries_frame, format_entries_frame]
    cases ts <;> cases scope_loop [] 0 ch <;> simp [headerEntries]

/-- C10: a scope with no recorded-fields blob at all contributes zero
pairs at any ordinal, the call succeeds, and as innermost scope it still
names the `span` value. -/
theorem missing_blob_scope_contributes_nothing (self : SolinkJsonFormat)
    (now : String) (ev : EventModel) (name : String) (rest : List SpanModel)
    (h : ∀ t ∈ rest, blobOk t) :
    scopeFields (SpanModel.mk name none) = [] ∧
    (∀ (m : SerializeMap) (i : Nat), scope_step m i (SpanModel.mk name none) =
      some (if i = 0 then m ++ [("span", Json.str name)] else m)) ∧
    format_entries self now ev (SpanModel.mk name none :: rest) =
      some (headerEntries self now ev ++ ev.fields ++
        ("span", Json.str name) :: (rest.map scopeFields).flatten) := by
  refine ⟨rfl, fun m i => ?_, ?_⟩
  · simp [scope_step, serialize_entry]
  · have hall : ∀ t ∈ SpanModel.mk name none :: rest, blobOk t := by
      intro t ht
      rcases List.mem_cons.mp ht with rfl | hmem
      · trivial
      · exact h t hmem
    have := format_entries_eq self now ev (SpanModel.mk name none :: rest) hall
    rw [spanEntry] at this
    rw [this]
    simp [scopeFields]

theorem missing_blob_scope_contributes_nothing_witness :
    (∀ t ∈ ([] : List SpanModel), blobOk t) ∧
    format_entries SolinkJsonFormat.new "t"
      { level := .info, target := "app", fields := [] }
      [SpanModel.mk "solo" none] =
      some (headerEntries SolinkJsonFormat.new "t"
          { level := .info, target := "app", fields := [] } ++ [] ++
        ("span", Json.str "solo") ::
          (([] : List SpanModel).map scopeFields).flatten) :=
  ⟨by simp,
    (missing_blob_scope_contributes_nothing SolinkJsonFormat.new "t"
      { level := .info, target := "app", fields := [] } "solo" []
      (by simp)).2.2⟩

/-- C2 as stated is false: a scope blob that is not valid JSON (the text
`not-json`) makes `format_event` panic on `from_str(..).unwrap()` — no
line is produced — rather than skipping that scope's fields. -/
theorem invalid_blob_panics_cex :
    format_line SolinkJsonFormat.new "t"
      { level := .info, target := "app",
        fields := [("message", Json.str "Test")] }
      [SpanModel.mk "s" (some "not-json")] = none :=
  rfl

/-- C2 amended: the recoverable condition is a blob that parses as valid
JSON but not as a JSON object — such a scope contributes zero fields and
the call still succeeds; a blob that is not valid JSON at all makes the
call fail (the unwrap panics). -/
theorem nonobject_blob_recovered (self : SolinkJsonFormat) (now : String)
    (ev : EventModel) (ch : List SpanModel) :
    ((∀ s ∈ ch, blobOk s) → (format_line self now ev ch).isSome = true) ∧
    (∀ s data j, s.formatted_fields = some data → from_str data = some j →
      (∀ kvs, j ≠ Json.obj kvs) → scopeFields s = []) ∧
    (∀ s ∈ ch, ¬ blobOk s → format_line self now ev ch = none) := by
  refine ⟨fun h => ?_, fun s data j hf hp hno => ?_, fun s hs hbad => ?_⟩
  · unfold format_line format_body
    rw [format_entries_eq self now ev ch h]
    rfl
  · unfold scopeFields
    rw [hf]
    cases j with
    | obj kvs => exact absurd rfl (hno kvs)
    | null => simp [hp]
    | bool b => simp [hp]
    | num n => simp [hp]
    | str t => simp [hp]
    | arr xs => simp [hp]
  · unfold format_line format_body format_entries
    rw [scope_loop_fail ch _ 0 s hs hbad]

theorem nonobject_blob_recovered_witness :
    (∀ s ∈ [SpanModel.mk "s" (some "[1,2]")], blobOk s) ∧
    (format_line SolinkJsonFormat.new "t"
      { level := .info, target := "app", fields := [] }
      [SpanModel.mk "s" (some "[1,2]")]).isSome = true ∧
    format_line SolinkJsonFormat.new "t"
      { level := .info, target := "app", fields := [] }
      [SpanModel.mk "bad" (some "not-json")] = none :=
  ⟨by decide,
    (nonobject_blob_recovered SolinkJsonFormat.new "t"
      { level := .info, target := "app", fields := [] }
      [SpanModel.mk "s" (some "[1,2]")]).1 (by decide),
    (nonobject_blob_recovered SolinkJsonFormat.new "t"
      { level := .info, target := "app", fields := [] }
      [SpanModel.mk "bad" (some "not-json")]).2.2
      (SpanModel.mk "bad" (some "not-json")) (by simp) (by decide)⟩

/-- C8 as stated is false: a sink that refuses the write of the formatted
line makes `format_event` panic (`write_str(..).unwrap()`), so the error
is not surfaced to the caller as a propagated error. -/
theorem body_write_error_panics_cex :
    format_event SolinkJsonFormat.new "t"
      { level := .info, target := "app", fields := [] } []
      (WriterModel.mk (fun _ => false)) = (FmtOutcome.panicked, []) ∧
    FmtOutcome.panicked ≠ FmtOutcome.err :=
  ⟨rfl, by decide⟩

/-- C8 amended: only a failure of the terminator write propagates to the
caller as an error (the body was already delivered); a failure of the body
write panics; and on an encoding failure nothing at all reaches the sink. -/
theorem sink_error_handling (self : SolinkJsonFormat) (now : String)
    (ev : EventModel) (ch : List SpanModel) (w : WriterModel) :
    (∀ body, format_body self now ev ch = some body →
      w.accepts body = true → w.accepts "\n" = false →
      format_event self now ev ch w = (.err, [body])) ∧
    (∀ body, format_body self now ev ch = some body →
      w.accepts body = false →
      format_event self now ev ch w = (.panicked, [])) ∧
    (format_body self now ev ch = none →
      format_event self now ev ch w = (.panicked, [])) := by
  refine ⟨fun body hb hacc hnl => ?_, fun body hb hacc => ?_, fun hb => ?_⟩
  · simp [format_event, hb, hacc, hnl]
  · simp [format_event, hb, hacc]
  · simp [format_event, hb]

theorem sink_error_handling_witness :
    format_event SolinkJsonFormat.default "t"
      { level := .info, target := "app", fields := [] } []
      (WriterModel.mk (fun s => !(s == "\n"))) =
      (FmtOutcome.err,
        ["\x7b\"timestamp\":\"t\",\"level\":\"INFO\",\"target\":\"app\"\x7d"]) :=
  (sink_error_handling SolinkJsonFormat.default "t"
    { level := .info, target := "app", fields := [] } []
    (WriterModel.mk (fun s => !(s == "\n")))).1
    "\x7b\"timestamp\":\"t\",\"level\":\"INFO\",\"target\":\"app\"\x7d"
    rfl rfl rfl

/-- C7: every produced line is the compact rendering of a JSON object
(the serializer map) followed by exactly one line terminator, and parsing
the body yields that object — never an array or scalar — with its
key/value sequence exactly as emitted. -/
theorem line_roundtrip_json_object (self : SolinkJsonFormat) (now : String)
    (ev : EventModel) (ch : List SpanModel) (m : SerializeMap)
    (h : format_entries self now ev ch = some m) :
    format_line self now ev ch = some ((Json.obj m).render ++ "\n") ∧
    from_str ((Json.obj m).render) = some (Json.obj m) ∧
    ((Json.obj m).render ++ "\n").data.count '\n' = 1 := by
  refine ⟨?_, from_str_render (Json.obj m), line_newline_count (Json.obj m)⟩
  unfold format_line format_body
  rw [h]

theorem line_roundtrip_json_object_witness :
    format_entries (SolinkJsonFormat.new.with_timestamp false) "t"
      { level := .info, target := "app", fields := [("z", Json.num 10)] }
      [] =
      some [("level", Json.str "INFO"), ("target", Json.str "app"),
        ("z", Json.num 10)] ∧
    (format_line (SolinkJsonFormat.new.with_timestamp false) "t"
      { level := .info, target := "app", fields := [("z", Json.num 10)] }
      [] =
      some ((Json.obj [("level", Json.str "INFO"),
        ("target", Json.str "app"), ("z", Json.num 10)]).render ++ "\n") ∧
    from_str ((Json.obj [("level", Json.str "INFO"),
        ("target", Json.str "app"), ("z", Json.num 10)]).render) =
      some (Json.obj [("level", Json.str "INFO"), ("target", Json.str "app"),
        ("z", Json.num 10)]) ∧
    ((Json.obj [("level", Json.str "INFO"), ("target", Json.str "app"),
        ("z", Json.num 10)]).render ++ "\n").data.count '\n' = 1) :=
  ⟨rfl, line_roundtrip_json_object _ _ _ _ _ rfl⟩

end Solink
